import Mathlib

/-
Verification of the rich-logger live-table engine (rich_logger/table_printer.py).

The development shallowly embeds the module's pure logic:
  * rule matching (`get_last_matching_value`, `get_last_matching_index`),
  * the `RichTablePrinter.log_metrics` pipeline (column registration with
    regex-derived display names, column reordering, row resolution by key,
    formatting with goal coloring),
  * `finalize` / `hijack_tqdm` tqdm-constructor patching,
  * `prune_tasks` and the `TqdmShim` constructor.

External collaborators are modelled as follows:
  * Python's `re` module is modelled by the inductive `Pattern`, covering the
    pattern shapes the logger is used with: a plain literal regex (which
    `re.match` anchors at the start, hence prefix matching), the wildcard
    `".*"`, and a one-group pattern of the form `"(.*)suffix"`.
  * Python's `str.format` is modelled by `Fmt`/`formatValue`: the default
    `"{}"` accepts any value, a numeric format (such as `"{:.4f}"`) raises on
    a non-numeric value.
  * rich's `Table` is modelled by `Table`: a list of columns (header plus the
    `_cells` list, one formatted string per row, `""` for an unset cell) and a
    row count; `add_row()` appends an empty cell to every column.
  * The module-level attribute `tqdm.tqdm.__new__` is modelled by the field
    `tqdm_tqdm_new` (constructors are identified by natural numbers).

Python exceptions are modelled by `Err`; `log_metrics` returns the mutated
state together with `Option Err`, because a raising call leaves all mutations
made before the raise in place (as in Python).
-/

namespace RichLogger

/-- Model of the regex patterns used as rule keys.  `lit s` is a regex with no
metacharacters and no groups (`re.match` anchors at the start, so it matches
any name having `s` as a prefix); `any` is `".*"` (no groups); `grp suffix` is
`"(.*)" ++ suffix` with one capturing group (modelled as matching names that
end with `suffix`, the group capturing the rest). -/
inductive Pattern where
  | lit : String → Pattern
  | any : Pattern
  | grp : String → Pattern
deriving DecidableEq, Repr

/-- Model of `re.match(pattern, name)` (anchored at the start, truthiness of
the returned match object). -/
def Pattern.rmatch : Pattern → String → Bool
  | .lit s, name => s.data.isPrefixOf name.data
  | .any, _ => true
  | .grp suffix, name => suffix.data.isSuffixOf name.data

/-- Model of `re.compile(pattern).groups`. -/
def Pattern.groups : Pattern → Nat
  | .lit _ => 0
  | .any => 0
  | .grp _ => 1

/-- Helper for `hasBackref`: does the character list contain a backslash
followed by a digit. -/
def hasBackrefAux : List Char → Bool
  | [] => false
  | [_] => false
  | a :: b :: rest => (a == '\\' && b.isDigit) || hasBackrefAux (b :: rest)

/-- Model of `re.findall(r"\\\d+", s)` being non-empty: `s` contains a group
back-reference such as `\1`. -/
def hasBackref (s : String) : Bool :=
  hasBackrefAux s.data

/-- Replace every `\1` back-reference in the template by the captured text. -/
def replaceBackrefAux (repl : List Char) : List Char → List Char
  | [] => []
  | [c] => [c]
  | a :: b :: rest =>
    if a == '\\' && b == '1' then repl ++ replaceBackrefAux repl rest
    else a :: replaceBackrefAux repl (b :: rest)

/-- Model of `re.sub(matcher, template, name)` for the patterns of this
development.  Only a pattern with a capturing group substitutes (the guarded
call site never invokes `re.sub` for a pattern without groups). -/
def Pattern.sub (p : Pattern) (template name : String) : String :=
  match p with
  | .grp suffix =>
    if suffix.data.isSuffixOf name.data then
      ⟨replaceBackrefAux (name.data.take (name.data.length - suffix.data.length)) template.data⟩
    else name
  | _ => name

/-- The `Goal` enum of table_printer.py. -/
inductive Goal where
  | lower_is_better
  | higher_is_better
deriving DecidableEq, Repr

/-- Model of a Python format string: `plain` is the default `"{}"`,
`numeric p` is a numeric format such as `"{:.pf}"`. -/
inductive Fmt where
  | plain
  | numeric : Nat → Fmt
deriving DecidableEq, Repr

/-- The `Rule` pydantic model (all attributes optional, default `None`). -/
structure Rule where
  name : Option String := none
  goal : Option Goal := none
  goal_wait : Option Int := none
  format : Option Fmt := none
deriving DecidableEq, Repr

/-- A value of the rules dictionary: either a bool (`True` pass-through /
`False` hidden) or a `Rule` descriptor. -/
inductive RuleVal where
  | bool : Bool → RuleVal
  | rule : Rule → RuleVal
deriving DecidableEq, Repr

/-- The ordered rules dictionary (`self.rules`): pattern/value pairs in
declaration order. -/
abbrev Rules := List (Pattern × RuleVal)

/-- Model of a logged Python value: a number or a string. -/
inductive Value where
  | num : Int → Value
  | str : String → Value
deriving DecidableEq, Repr

/-- The Python exceptions the embedded code can raise. -/
inductive Err where
  | keyError
  | indexError
  | formatError
  | typeError
  | attributeError
deriving DecidableEq, Repr

/-- Second component of `get_last_matching_value`'s result: Python returns
either the literal `False` (hidden) or a value of the requested attribute's
type (possibly the caller-supplied default). -/
inductive RVal (α : Type) where
  | hidden : RVal α
  | val : α → RVal α
deriving DecidableEq, Repr

/-- The body of `get_last_matching_value`'s loop, running over the already
reversed rule list (the source iterates `reversed(list(matchers.items()))`).
`field` is the `getattr(rule, field)` accessor. -/
def glmvAux {α : Type} (name : String) (field : Rule → Option α) (dflt : α) :
    List (Pattern × RuleVal) → Option Pattern × RVal α
  | [] => (none, .val dflt)
  | (m, rv) :: rest =>
    if m.rmatch name then
      match rv with
      | .bool false => (some m, .hidden)
      | .bool true => (some m, .val dflt)
      | .rule ru =>
        match field ru with
        | some v => (some m, .val v)
        | none => glmvAux name field dflt rest
    else glmvAux name field dflt rest

/-- Embedding of `get_last_matching_value(matchers, name, field, default)`
(table_printer.py lines 139-150). -/
def get_last_matching_value {α : Type} (rules : Rules) (name : String)
    (field : Rule → Option α) (dflt : α) : Option Pattern × RVal α :=
  glmvAux name field dflt rules.reverse

/-- Loop body of `get_last_matching_index`, over the reversed enumeration. -/
def glmiAux (name : String) : List (Nat × Pattern) → Option Nat
  | [] => none
  | (i, m) :: rest => if m.rmatch name then some i else glmiAux name rest

/-- Embedding of `get_last_matching_index(matchers, name)` (table_printer.py
lines 132-136); `none` models the raised `ValueError`. -/
def get_last_matching_index (rules : Rules) (name : String) : Option Nat :=
  glmiAux name ((rules.map Prod.fst).enum.reverse)

/-- An insertion-ordered dictionary, as Python dicts: updating an existing key
keeps its position, a new key is appended. -/
abbrev Dict (K V : Type) := List (K × V)

/-- Dictionary lookup (`d[k]` / `k in d`). -/
def dget {K V : Type} [DecidableEq K] : Dict K V → K → Option V
  | [], _ => none
  | (k2, v) :: rest, k => if k2 = k then some v else dget rest k

/-- Dictionary store `d[k] = v` with Python insertion-order semantics. -/
def dset {K V : Type} [DecidableEq K] : Dict K V → K → V → Dict K V
  | [], k, v => [(k, v)]
  | (k2, v2) :: rest, k, v =>
    if k2 = k then (k2, v) :: rest else (k2, v2) :: dset rest k v

/-- `max(d.values())` guarded by non-emptiness (`none` for an empty dict). -/
def dictMaxVal (d : Dict String Int) : Option Int :=
  match d with
  | [] => none
  | (_, v) :: rest => some ((rest.map Prod.snd).foldl max v)

/-- A rich table column: header text plus the `_cells` list (one formatted
string per row; `""` models an unset cell). -/
structure Col where
  header : String
  cells : List String
deriving DecidableEq, Repr

/-- Model of the rich `Table` owned by the printer: columns plus the number of
rows (`len(table.rows)`). -/
structure Table where
  columns : List Col
  nrows : Nat
deriving DecidableEq, Repr

/-- `table.add_row()` with no arguments: every column receives one more
(empty) cell and the row count grows. -/
def Table.addRow (t : Table) : Table :=
  { columns := t.columns.map fun c => { c with cells := c.cells ++ [""] }
    nrows := t.nrows + 1 }

/-- State of a `RichTablePrinter`.  `tqdm_tqdm_new` models the module global
`tqdm.tqdm.__new__` (constructors as numeric identifiers); `tasks` and
`next_task_id` model the rich `Progress` task registry. -/
structure Printer where
  key : Option String
  rules : Rules
  key_to_row_idx : Dict Value Nat
  name_to_column_idx : Dict String Int
  best : Dict String Value
  old_tqdm_new : Option Nat
  tqdm_tqdm_new : Nat
  displayed_tasks : List (Nat × Bool)
  tasks : List Nat
  next_task_id : Nat
  logger_table : Option Table
deriving DecidableEq, Repr

/-- Embedding of `RichTablePrinter.__init__(fields, key)`: a configured key
absent from the rules is prepended as an empty descriptor rule.  (Pydantic
schema validation is a no-op here because `Rule` admits exactly the schema's
attributes.)  The initial tqdm constructor is identifier 0. -/
def mkPrinter (fields : Rules) (key : Option String) : Printer :=
  let fields2 : Rules :=
    match key with
    | some k =>
      if (fields.map Prod.fst).contains (Pattern.lit k) then fields
      else (Pattern.lit k, RuleVal.rule {}) :: fields
    | none => fields
  { key := key, rules := fields2, key_to_row_idx := [], name_to_column_idx := []
    best := [], old_tqdm_new := none, tqdm_tqdm_new := 0, displayed_tasks := []
    tasks := [], next_task_id := 0, logger_table := none }

/-- The display-name computation of `log_metrics` (table_printer.py lines
276-281): substitute group back-references only when a matcher exists, has
capturing groups, and the resolved name contains a back-reference; otherwise
the resolved name is used literally. -/
def computeColumnName (name : String) (matcher : Option Pattern)
    (column_name : String) : String :=
  match matcher with
  | some m =>
    if 0 < m.groups && hasBackref column_name then m.sub column_name name
    else column_name
  | none => column_name

/-- One step of the column-registration loop of `log_metrics` (lines 268-292):
an unseen field either registers the hidden sentinel `-1` or appends a new
column (backfilled with as many empty cells as the first column has) and
takes index `max(existing) + 1`. -/
def registerField (rules : Rules) (st : Table × Dict String Int) (name : String) :
    Table × Dict String Int :=
  let t := st.1
  let d := st.2
  if (dget d name).isSome then st
  else
    match get_last_matching_value rules name Rule.name name with
    | (_, .hidden) => (t, dset d name (-1))
    | (matcher, .val cn0) =>
      let cn := computeColumnName name matcher cn0
      let nBackfill := match t.columns with
        | [] => 0
        | c :: _ => c.cells.length
      let t2 : Table :=
        { t with columns := t.columns ++ [{ header := cn, cells := List.replicate nBackfill "" }] }
      let newIdx : Int := match dictMaxVal d with
        | none => 0
        | some m => m + 1
      (t2, dset d name newIdx)

/-- The column-registration pass over a whole record (the first `for` loop of
`log_metrics`); the loop binds each value but never reads it. -/
def phaseA (rules : Rules) (st : Table × Dict String Int)
    (info : List (String × Value)) : Table × Dict String Int :=
  info.foldl (fun st nv => registerField rules st nv.1) st

/-- The sort key of the reordering pass (`get_name_index` inside
`log_metrics`, lines 296-300): last-matching rule index, or the current
number of registered fields when no rule matches (`ValueError` caught). -/
def get_name_index (rules : Rules) (nFields : Nat) (name : String) : Nat :=
  (get_last_matching_index rules name).getD nFields

/-- The comparison `sorted(...)` uses in the reordering pass. -/
def rankLe (rules : Rules) (nFields : Nat) (a b : String × Int) : Prop :=
  get_name_index rules nFields a.1 ≤ get_name_index rules nFields b.1

instance (rules : Rules) (nFields : Nat) : DecidableRel (rankLe rules nFields) :=
  fun _ _ => Nat.decLe _ _

instance (rules : Rules) (nFields : Nat) : IsTotal (String × Int) (rankLe rules nFields) :=
  ⟨fun _ _ => Nat.le_total _ _⟩

instance (rules : Rules) (nFields : Nat) : IsTrans (String × Int) (rankLe rules nFields) :=
  ⟨fun _ _ _ => Nat.le_trans⟩

/-- Loop body of the reordering pass (lines 302-311): walk the sorted fields,
collect the visible columns in order and rebuild the name-to-index dictionary
(visible fields take `max(new.values()) + 1`, hidden fields keep `-1`).
Indexing a missing column raises. -/
def phaseBGo (t : Table) :
    List (String × Int) → Dict String Int → List Col →
    Except Err (Dict String Int × List Col)
  | [], nd, cols => .ok (nd, cols)
  | (name, oldIdx) :: rest, nd, cols =>
    if 0 ≤ oldIdx then
      match t.columns.get? oldIdx.toNat with
      | none => .error .indexError
      | some col =>
        let newIdx : Int := match dictMaxVal nd with
          | none => 0
          | some m => m + 1
        phaseBGo t rest (dset nd name newIdx) (cols ++ [col])
    else
      phaseBGo t rest (dset nd name (-1)) cols

/-- The reordering pass of `log_metrics` (lines 293-313): stable-sort all
registered fields by `get_name_index` and rebuild columns and indices.
Python's `sorted` is a stable sort by the same key, so it agrees with
`List.insertionSort`.  On an error the table and dictionary are left
untouched (the source assigns them only after the loop). -/
def phaseB (rules : Rules) (d : Dict String Int) (t : Table) :
    Except Err (Dict String Int × Table) :=
  let sorted := List.insertionSort (rankLe rules d.length) d
  match phaseBGo t sorted [] [] with
  | .error e => .error e
  | .ok (nd, cols) => .ok (nd, { t with columns := cols })

/-- Row resolution of `log_metrics` (lines 315-327).  Returns the possibly
grown table, the updated key map, and the row index — `none` meaning the
`KeyError` raised by `info[self.key]` when the key is configured and absent
while no row exists yet (the row has already been added at that point). -/
def resolveRow (key : Option String) (k2r : Dict Value Nat) (t : Table)
    (info : List (String × Value)) : Dict Value Nat × Table × Option Nat :=
  match key with
  | some k =>
    match dget info k with
    | some kv =>
      match dget k2r kv with
      | some idx => (k2r, t, some idx)
      | none =>
        let t2 := t.addRow
        (dset k2r kv (t2.nrows - 1), t2, some (t2.nrows - 1))
    | none =>
      match k2r with
      | [] => (k2r, t.addRow, none)
      | _ => (k2r, t, some ((k2r.map Prod.snd).getLastD 0))
  | none =>
    let t2 := t.addRow
    (k2r, t2, some (t2.nrows - 1))

/-- Model of `fmt.format(value)`: the default format accepts anything, a
numeric format raises on a non-numeric value. -/
def formatValue : Fmt → Value → Except Err String
  | .plain, .num x => .ok (toString x)
  | .plain, .str s => .ok s
  | .numeric _, .num x => .ok (toString x)
  | .numeric _, .str _ => .error .formatError

/-- `get_last_matching_value(self.rules, name, "format", "{}")[1].format(value)`
(line 334): a `False` resolution would be `False.format(...)`, an
`AttributeError`. -/
def formatResolved (rules : Rules) (name : String) (v : Value) : Except Err String :=
  match (get_last_matching_value rules name Rule.format Fmt.plain).2 with
  | .hidden => .error .attributeError
  | .val f => formatValue f v

/-- `value - best` (line 343); Python raises `TypeError` unless both are
numbers. -/
def vsub : Value → Value → Except Err Int
  | .num a, .num b => .ok (a - b)
  | _, _ => .error .typeError

/-- `goal is not None` (line 339): the resolved goal is entered unless it is
literally `None` (a `False` resolution — a hidden rule hit during goal
lookup — is *not* `None` and enters the branch). -/
def goalEntered : RVal (Option Goal) → Bool
  | .val none => false
  | _ => true

/-- The sign `-1 if goal == "lower_is_better" else 1` (line 344). -/
def goalMult : RVal (Option Goal) → Int
  | .val (some .lower_is_better) => -1
  | _ => 1

/-- The resolved `goal_wait` as the integer Python compares against
(`False` counts as 0). -/
def waitVal : RVal Int → Int
  | .hidden => 0
  | .val n => n

/-- The goal-coloring block of `log_metrics` (lines 340-350), entered when the
resolved goal is not `None`.  Returns the possibly wrapped cell text and
`some v` when `self.best[name]` is assigned `v` (first observation, warm-up,
or strict improvement); a tie or regression leaves the best untouched and
wraps in red. -/
def applyGoal (goalR : RVal (Option Goal)) (waitR : RVal Int)
    (bestEntry : Option Value) (prev_count : Nat) (value : Value)
    (fv : String) : Except Err (String × Option Value) :=
  match bestEntry with
  | none => .ok (fv, some value)
  | some b =>
    if (prev_count : Int) ≤ waitVal waitR then .ok (fv, some value)
    else
      match vsub value b with
      | .error e => .error e
      | .ok d0 =>
        let diff := d0 * goalMult goalR
        if 0 < diff then .ok ("[green]" ++ fv ++ "[/green]", some value)
        else .ok ("[red]" ++ fv ++ "[/red]", none)

/-- `col._cells[idx] = v` — raises `IndexError` out of range. -/
def setCell (cells : List String) (i : Nat) (v : String) : Except Err (List String) :=
  if i < cells.length then .ok (cells.set i v) else .error .indexError

/-- One iteration of the cell-writing loop of `log_metrics` (lines 328-353)
for field `name` with value `value`: skip hidden fields, read the column (its
cell count is `prev_count`), format, apply goal coloring, write the cell.
The returned state reflects every mutation made before a raise. -/
def writeCell1 (rules : Rules) (d : Dict String Int) (best : Dict String Value)
    (t : Table) (idx : Nat) (name : String) (value : Value) :
    (Dict String Value × Table) × Option Err :=
  match dget d name with
  | none => ((best, t), some .keyError)
  | some i =>
    if i < 0 then ((best, t), none)
    else
      match t.columns.get? i.toNat with
      | none => ((best, t), some .indexError)
      | some col =>
        let prev_count := col.cells.length
        match formatResolved rules name value with
        | .error e => ((best, t), some e)
        | .ok fv =>
          let goalR := (get_last_matching_value rules name (fun r => r.goal.map some)
            (none : Option Goal)).2
          let waitR := (get_last_matching_value rules name Rule.goal_wait (1 : Int)).2
          let step : Except Err (String × Dict String Value) :=
            if goalEntered goalR then
              match applyGoal goalR waitR (dget best name) prev_count value fv with
              | .error e => .error e
              | .ok (fv2, some bv) => .ok (fv2, dset best name bv)
              | .ok (fv2, none) => .ok (fv2, best)
            else .ok (fv, best)
          match step with
          | .error e => ((best, t), some e)
          | .ok (fv2, best2) =>
            match setCell col.cells idx fv2 with
            | .error e => ((best2, t), some e)
            | .ok cells2 =>
              ((best2, { t with columns := t.columns.set i.toNat { col with cells := cells2 } }), none)

/-- The cell-writing loop of `log_metrics` over the whole record: fields are
processed in record order, the first raise stops the loop and leaves earlier
writes in place. -/
def writeCells (rules : Rules) (d : Dict String Int) :
    Dict String Value → Table → Nat → List (String × Value) →
    (Dict String Value × Table) × Option Err
  | best, t, _, [] => ((best, t), none)
  | best, t, idx, (n, v) :: rest =>
    match writeCell1 rules d best t idx n v with
    | (st, some e) => (st, some e)
    | ((b2, t2), none) => writeCells rules d b2 t2 idx rest

/-- The record type passed to `log_metrics`. -/
abbrev Info := List (String × Value)

/-- Embedding of `RichTablePrinter.log_metrics(info)` (lines 257-355):
lazily (re)create the table (`ensure_live`), register the record's new
fields, reorder the columns, resolve the row, and write the formatted cells.
An error is returned together with the state as mutated up to the raise. -/
def log_metrics (p : Printer) (info : Info) : Printer × Option Err :=
  let t0 := p.logger_table.getD { columns := [], nrows := 0 }
  let ad := phaseA p.rules (t0, p.name_to_column_idx) info
  let t1 := ad.1
  let d1 := ad.2
  match phaseB p.rules d1 t1 with
  | .error e =>
    ({ p with logger_table := some t1, name_to_column_idx := d1 }, some e)
  | .ok (d2, t2) =>
    match resolveRow p.key p.key_to_row_idx t2 info with
    | (k2r, t3, none) =>
      ({ p with
          logger_table := some t3
          name_to_column_idx := d2
          key_to_row_idx := k2r }, some .keyError)
    | (k2r, t3, some idx) =>
      match writeCells p.rules d2 p.best t3 idx info with
      | ((best2, t4), err) =>
        ({ p with
            logger_table := some t4
            name_to_column_idx := d2
            key_to_row_idx := k2r
            best := best2 }, err)

/-- Embedding of `RichTablePrinter.finalize` (lines 371-385): with an active
table, restore `tqdm.tqdm.__new__` from the saved constructor (clearing the
save) and drop the table; without one, a no-op. -/
def finalize (p : Printer) : Printer :=
  match p.logger_table with
  | none => p
  | some _ =>
    match p.old_tqdm_new with
    | some o => { p with tqdm_tqdm_new := o, old_tqdm_new := none, logger_table := none }
    | none => { p with logger_table := none }

/-- Embedding of `RichTablePrinter.hijack_tqdm` (lines 387-441): save the
current `tqdm.tqdm.__new__` only when no save exists, then install the shim
constructor `shimCtor`. -/
def hijack_tqdm (p : Printer) (shimCtor : Nat) : Printer :=
  match p.old_tqdm_new with
  | some _ => p
  | none => { p with old_tqdm_new := some p.tqdm_tqdm_new, tqdm_tqdm_new := shimCtor }

/-- Loop of `prune_tasks` (lines 221-229): disposable entries are removed from
the task registry, the others are kept in order. -/
def pruneGo : List (Nat × Bool) → List Nat → List (Nat × Bool) →
    List Nat × List (Nat × Bool)
  | [], tasks, remaining => (tasks, remaining)
  | (id, disp) :: rest, tasks, remaining =>
    if disp then pruneGo rest (tasks.filter fun t => t != id) remaining
    else pruneGo rest tasks (remaining ++ [(id, disp)])

/-- Embedding of `RichTablePrinter.prune_tasks`. -/
def prune_tasks (p : Printer) : Printer :=
  let pr := pruneGo p.displayed_tasks p.tasks []
  { p with tasks := pr.1, displayed_tasks := pr.2 }

/-- `Progress.add_task`: register a fresh task id. -/
def add_task (p : Printer) : Printer × Nat :=
  ({ p with tasks := p.tasks ++ [p.next_task_id], next_task_id := p.next_task_id + 1 },
   p.next_task_id)

/-- The shim object state relevant to the overlay. -/
structure Shim where
  total : Option Nat
  task_id : Option Nat
deriving DecidableEq, Repr

/-- Embedding of `TqdmShim.__init__` (lines 452-485): a disabled bar registers
nothing; otherwise, only when no explicit total was supplied, the total is
taken from `len(iterable)` (when available) and `prune_tasks` runs — then the
task is registered and appended to `displayed_tasks` as non-disposable. -/
def shimInit (p : Printer) (total : Option Nat) (iterLen : Option Nat)
    (disable : Bool) : Printer × Shim :=
  if disable then (p, { total := total, task_id := none })
  else
    let total2 := match total with
      | none => iterLen
      | some t => some t
    let p2 := match total with
      | none => prune_tasks p
      | some _ => p
    let pr := add_task p2
    let p4 := { pr.1 with displayed_tasks := pr.1.displayed_tasks ++ [(pr.2, false)] }
    (p4, { total := total2, task_id := some pr.2 })


/-- The rule set of the repository test `test_no_context`, reduced to the
rules relevant for the field `task_precision`: a specific rule setting a
display name and a format, followed by the trailing pass-through wildcard
`".*": True`. -/
def c1Rules : Rules :=
  [(.lit "step", .rule {}),
   (.grp "_precision", .rule { name := some "\x5c1_p", format := some (.numeric 4),
                               goal := some .higher_is_better }),
   (.any, .bool true)]

/-- The printer of the C5 scenario: one rule with `goal=lower_is_better`,
`goal_wait=1`. -/
def c5Printer : Printer :=
  mkPrinter [(.lit "loss", .rule { goal := some .lower_is_better, goal_wait := some 1 })] none

/-- Four rules; only the fourth (index 3) matches the field `d`, nothing
matches `zzz`. -/
def c2Rules : Rules :=
  [(.lit "a", .bool true), (.lit "b", .bool true), (.lit "c", .bool true),
   (.lit "d", .rule { name := some "D" })]

/-- A printer with one stale disposable overlay entry. -/
def c9Printer : Printer :=
  { mkPrinter [] none with displayed_tasks := [(0, true)], tasks := [0], next_task_id := 1 }

/-- A concrete printer with an active table and no saved constructor. -/
def c10Printer : Printer :=
  { mkPrinter [] none with
      tqdm_tqdm_new := 3
      logger_table := some { columns := [], nrows := 0 } }

/-- The canonical embedding of slot numbers into the index type. -/
def intOfNat (n : Nat) : Int := n

/-- The table and name-to-index dictionary of `log_metrics` right after the
column-registration pass (`ensure_live` plus the first loop, lines 266-292),
before the reordering pass.  Its dictionary lists the fields in registration
order: the pre-call order extended by each new field at its first appearance,
i.e. first-seen order. -/
def registration (p : Printer) (info : Info) : Table × Dict String Int :=
  phaseA p.rules (p.logger_table.getD { columns := [], nrows := 0 },
    p.name_to_column_idx) info

/-- The visible slots of a rebuilt name-to-index dictionary are exactly
`0, 1, …, m-1` in order, every other slot being the hidden sentinel `-1`. -/
def visRange (nd : Dict String Int) (m : Nat) : Prop :=
  ((nd.map Prod.snd).filter fun v => decide (0 ≤ v)) = (List.range m).map intOfNat
  ∧ ∀ v ∈ nd.map Prod.snd, v = -1 ∨ (0 ≤ v ∧ v < (m : Int))

end RichLogger

namespace RichLogger

/-! ## Claim C1 — trailing pass-through wildcard and attribute resolution -/

/-- C1, evaluated at the failing input.  Resolving `name` and `format` for the
field `task_precision` under a rule set ending in a pass-through wildcard
returns the caller-supplied default (the wildcard matches first in the
reversed walk and `rule is True` returns the default immediately) — not the
values `"\1_p"` and `"{:.4f}"` set by the earlier matching rule, contrary to
the claim (and to the repository's own tests `test_no_context`/`test_tqdm`,
whose expected output shows the renamed, formatted columns). -/
theorem c1_passthrough_overrides_set_attributes :
    get_last_matching_value c1Rules "task_precision" Rule.name "task_precision"
      = (some .any, .val "task_precision")
    ∧ get_last_matching_value c1Rules "task_precision" Rule.format Fmt.plain
      = (some .any, .val .plain)
    ∧ (get_last_matching_value [(Pattern.grp "_precision",
        RuleVal.rule { name := some "\x5c1_p" })] "task_precision"
        Rule.name "task_precision").2 = .val "\x5c1_p" := by
  refine ⟨by decide, by decide, by decide⟩

/-! ## Claim C4 — record lacking the configured key with no rows yet -/

/-- C4, evaluated at the failing input.  With key `"step"` configured, no rows
yet, and a record lacking the key, `log_metrics` adds row 0 and then raises
`KeyError` at `self.key_to_row_idx[info[self.key]]`; no key mapping is
recorded.  The claim (and the spec's RowIndex design) says the call succeeds. -/
theorem c4_missing_key_no_rows_keyerror :
    (log_metrics (mkPrinter [] (some "step")) [("loss", .num 10)]).2 = some .keyError
    ∧ ((log_metrics (mkPrinter [] (some "step")) [("loss", .num 10)]).1.logger_table.map
        Table.nrows) = some 1
    ∧ (log_metrics (mkPrinter [] (some "step")) [("loss", .num 10)]).1.key_to_row_idx
        = [] := by
  refine ⟨by decide, by decide, by decide⟩

/-! ## Claim C5 — goal coloring sequence and tie semantics -/

/-- C5.  (i) Logging `[10, 8, 9]` in three records produces the cells
`["10", "[green]8[/green]", "[red]9[/red]"]` — hints `[None, Improved,
Regressed]` — with no error.  (ii) Past warm-up, a tie with the recorded best
(`delta == 0`, here for any goal) is wrapped red (Regressed) and leaves the
best untouched.  (iii) Only a strict improvement (here `lower_is_better`,
new value strictly below best) wraps green and updates the best. -/
theorem c5_goal_coloring :
    ((log_metrics (log_metrics (log_metrics c5Printer [("loss", .num 10)]).1
        [("loss", .num 8)]).1 [("loss", .num 9)]).1.logger_table.map
        fun t => t.columns.map Col.cells)
      = some [["10", "[green]8[/green]", "[red]9[/red]"]]
    ∧ (log_metrics (log_metrics (log_metrics c5Printer [("loss", .num 10)]).1
        [("loss", .num 8)]).1 [("loss", .num 9)]).2 = none
    ∧ (∀ (goalR : RVal (Option Goal)) (waitR : RVal Int) (b : Int)
          (prevc : Nat) (fv : String), waitVal waitR < (prevc : Int) →
        applyGoal goalR waitR (some (.num b)) prevc (.num b) fv
          = .ok ("[red]" ++ fv ++ "[/red]", none))
    ∧ (∀ (waitR : RVal Int) (b x : Int) (prevc : Nat) (fv : String),
        waitVal waitR < (prevc : Int) → x < b →
        applyGoal (.val (some .lower_is_better)) waitR (some (.num b)) prevc (.num x) fv
          = .ok ("[green]" ++ fv ++ "[/green]", some (.num x))) := by
  refine ⟨by decide, by decide, ?_, ?_⟩
  · intro goalR waitR b prevc fv hw
    simp only [applyGoal, vsub, if_neg (not_le.mpr hw), sub_self, zero_mul, lt_irrefl,
      if_false]
  · intro waitR b x prevc fv hw hx
    simp only [applyGoal, vsub, if_neg (not_le.mpr hw), goalMult]
    have hpos : (0 : Int) < (x - b) * (-1) := by linarith
    rw [if_pos hpos]

/-- Witness for C5: the tie and strict-improvement conjuncts at concrete
inputs. -/
theorem c5_goal_coloring_witness :
    applyGoal (.val (some .lower_is_better)) (.val 1) (some (.num 10)) 2 (.num 10) "x"
      = .ok ("[red]" ++ "x" ++ "[/red]", none)
    ∧ applyGoal (.val (some .lower_is_better)) (.val 1) (some (.num 10)) 2 (.num 8) "y"
      = .ok ("[green]" ++ "y" ++ "[/green]", some (.num 8)) :=
  ⟨c5_goal_coloring.2.2.1 (.val (some .lower_is_better)) (.val 1) 10 2 "x" (by decide),
   c5_goal_coloring.2.2.2 (.val 1) 10 8 2 "y" (by decide) (by decide)⟩

end RichLogger

namespace RichLogger

/-! ## Claim C2 — column order after log_metrics -/

/-- Counterexample to C2.  Under `c2Rules`, after logging a record containing
the matched field `d` (last-matching rule index 3) and the unmatched field
`zzz`, the unmatched field is sorted with key `len(name_to_column_idx)` = 2 <
3, so it receives column 0 — *before* the matched field `d` — contradicting
"fields matching no rule are placed after every matched field". -/
theorem c2_counterexample :
    get_last_matching_index c2Rules "zzz" = none
    ∧ get_last_matching_index c2Rules "d" = some 3
    ∧ (log_metrics (mkPrinter c2Rules none) [("d", .num 1), ("zzz", .num 2)]).2 = none
    ∧ (log_metrics (mkPrinter c2Rules none) [("d", .num 1), ("zzz", .num 2)]).1.name_to_column_idx
        = [("zzz", 0), ("d", 1)] := by
  refine ⟨by decide, by decide, by decide, by decide⟩

/-! ## Claim C3 — log_metrics after finalize -/

/-- Counterexample to C3.  A live session is started (first call succeeds and
the table exists), `finalize` releases it; a subsequent `log_metrics` is *not*
rejected: it returns no error and renders a fresh one-row table. -/
theorem c3_counterexample :
    (log_metrics (mkPrinter [] none) []).2 = none
    ∧ ((log_metrics (mkPrinter [] none) []).1.logger_table).isSome = true
    ∧ (finalize (log_metrics (mkPrinter [] none) []).1).logger_table = none
    ∧ (log_metrics (finalize (log_metrics (mkPrinter [] none) []).1) [("b", .num 2)]).2 = none
    ∧ ((log_metrics (finalize (log_metrics (mkPrinter [] none) []).1) [("b", .num 2)]).1.logger_table.map
        fun t => t.columns.map fun c => (c.header, c.cells)) = some [("b", ["2"])] := by
  refine ⟨by decide, by decide, by decide, by decide, by decide⟩

/-- C3 as amended: `finalize` drops the table, and a `log_metrics` call on a
printer without a table is not rejected — `ensure_live` silently
re-initializes the live region, and the call proceeds exactly as if a fresh
empty table had been installed. -/
theorem c3_relog_reinitializes (p : Printer) (info : Info)
    (h : p.logger_table = none) :
    (finalize p).logger_table = none
    ∧ log_metrics p info
        = log_metrics { p with logger_table := some { columns := [], nrows := 0 } } info := by
  constructor
  · simp [finalize, h]
  · simp only [log_metrics, h, Option.getD_none, Option.getD_some]

/-- Witness for C3: the amended statement at a concrete fresh printer. -/
theorem c3_relog_reinitializes_witness :
    (finalize (mkPrinter [] none)).logger_table = none
    ∧ log_metrics (mkPrinter [] none) [("b", .num 2)]
        = log_metrics { mkPrinter [] none with
            logger_table := some { columns := [], nrows := 0 } } [("b", .num 2)] :=
  c3_relog_reinitializes (mkPrinter [] none) [("b", .num 2)] rfl

end RichLogger

namespace RichLogger

/-! ## Claim C6 — a formatting error mid-record -/

/-- The cell-writing loop over a concatenation: the second part only runs if
the first part raised no error. -/
theorem writeCells_append (rules : Rules) (d : Dict String Int) (idx : Nat) :
    ∀ (l1 l2 : Info) (best : Dict String Value) (t : Table),
    writeCells rules d best t idx (l1 ++ l2)
      = match writeCells rules d best t idx l1 with
        | (st, some e) => (st, some e)
        | ((b2, t2), none) => writeCells rules d b2 t2 idx l2 := by
  intro l1
  induction l1 with
  | nil => intro l2 best t; simp [writeCells]
  | cons hd tl ih =>
    intro l2 best t
    obtain ⟨n, v⟩ := hd
    simp only [List.cons_append, writeCells]
    cases hw : writeCell1 rules d best t idx n v with
    | mk st e =>
      cases e with
      | none =>
        obtain ⟨b2, t2⟩ := st
        simp [ih]
      | some e => simp

/-- C6.  (i) Concretely: with a numeric format configured for `b`, logging
`{a: 1, b: "oops"}` raises the formatting error, but the earlier field `a`
stays written and `b`'s cell stays empty.  (ii) In general: if the loop over
the earlier fields `i1` succeeded with state `(b1, t1)`, the field `n` is
visible, its column is readable, and formatting its value raises `e`, then
the whole loop raises `e` and leaves the state exactly at `(b1, t1)` — the
earlier fields remain written, `n`'s cell is untouched, later fields are not
processed. -/
theorem c6_format_error_not_atomic :
    ((log_metrics (mkPrinter [(.lit "b", .rule { format := some (.numeric 2) })] none)
        [("a", .num 1), ("b", .str "oops")]).2 = some .formatError
      ∧ ((log_metrics (mkPrinter [(.lit "b", .rule { format := some (.numeric 2) })] none)
          [("a", .num 1), ("b", .str "oops")]).1.logger_table.map
            fun t => t.columns.map fun c => (c.header, c.cells))
          = some [("b", [""]), ("a", ["1"])])
    ∧ ∀ (rules : Rules) (d : Dict String Int) (best b1 : Dict String Value)
        (t t1 : Table) (idx : Nat) (i1 i2 : Info) (n : String) (v : Value)
        (i : Int) (col : Col) (e : Err),
      writeCells rules d best t idx i1 = ((b1, t1), none) →
      dget d n = some i → 0 ≤ i →
      t1.columns.get? i.toNat = some col →
      formatResolved rules n v = .error e →
      writeCells rules d best t idx (i1 ++ (n, v) :: i2) = ((b1, t1), some e) := by
  refine ⟨⟨by decide, by decide⟩, ?_⟩
  intro rules d best b1 t t1 idx i1 i2 n v i col e hpre hn hi hcol hfmt
  rw [writeCells_append, hpre]
  simp only [writeCells, writeCell1, hn, if_neg (not_lt.mpr hi), hcol, hfmt]

/-- Witness for C6: the general conjunct at a concrete loop state. -/
theorem c6_format_error_not_atomic_witness :
    writeCells [(.lit "b", .rule { format := some (.numeric 2) })]
        [("a", 0), ("b", 1)] [] { columns := [{ header := "a", cells := [""] },
        { header := "b", cells := [""] }], nrows := 1 } 0
        ([("a", .num 1)] ++ ("b", .str "oops") :: [])
      = (([], { columns := [{ header := "a", cells := ["1"] },
          { header := "b", cells := [""] }], nrows := 1 }), some .formatError) :=
  c6_format_error_not_atomic.2
    [(.lit "b", .rule { format := some (.numeric 2) })] [("a", 0), ("b", 1)] [] []
    { columns := [{ header := "a", cells := [""] }, { header := "b", cells := [""] }], nrows := 1 }
    { columns := [{ header := "a", cells := ["1"] }, { header := "b", cells := [""] }], nrows := 1 }
    0 [("a", .num 1)] [] "b" (.str "oops") 1 { header := "b", cells := [""] } .formatError
    (by decide) (by decide) (by decide) (by decide) rfl

/-! ## Claim C8 — back-reference templates without capturing groups -/

/-- Counterexample to C8.  One rule whose pattern has no capturing groups but
whose display-name template `"\1_p"` contains a back-reference: `log_metrics`
does not crash, but the column's display name is the *template used
literally* — not the raw field name, as the claim states. -/
theorem c8_counterexample :
    (log_metrics (mkPrinter [(.lit "task_precision", .rule { name := some "\x5c1_p" })] none)
        [("task_precision", .num 1)]).2 = none
    ∧ ((log_metrics (mkPrinter [(.lit "task_precision", .rule { name := some "\x5c1_p" })] none)
        [("task_precision", .num 1)]).1.logger_table.map
          fun t => t.columns.map Col.header) = some ["\x5c1_p"]
    ∧ "\x5c1_p" ≠ "task_precision" := by
  refine ⟨by decide, by decide, by decide⟩

/-- C8 as amended: when the winning pattern has no capturing groups, or the
resolved display-name template has no back-references, the substitution is
skipped and the template itself is used literally as the display name (the
computation is total, so no crash; the display name equals the raw field name
only when the template already is the field name, e.g. when no matching rule
sets a name). -/
theorem c8_no_groups_template_literal (name cn : String) (m : Option Pattern) :
    ((∀ pat, m = some pat → pat.groups = 0) → computeColumnName name m cn = cn)
    ∧ (hasBackref cn = false → computeColumnName name m cn = cn) := by
  constructor
  · intro h
    cases m with
    | none => rfl
    | some pat => simp [computeColumnName, h pat rfl]
  · intro h
    cases m with
    | none => rfl
    | some pat => simp [computeColumnName, h]

/-- Witness for C8: a groups-free pattern with a back-reference template, and
a one-group pattern with a back-reference-free template. -/
theorem c8_no_groups_template_literal_witness :
    computeColumnName "task_precision" (some (.lit "task_precision")) "\x5c1_p" = "\x5c1_p"
    ∧ computeColumnName "x_recall" (some (.grp "_recall")) "R" = "R" :=
  ⟨(c8_no_groups_template_literal "task_precision" "\x5c1_p" (some (.lit "task_precision"))).1
      (fun pat hp => by cases hp; rfl),
   (c8_no_groups_template_literal "x_recall" "R" (some (.grp "_recall"))).2 (by decide)⟩

end RichLogger

namespace RichLogger

/-! ## Claim C9 — pruning on progress-bar construction -/

/-- The remaining displayed tasks after the prune loop are exactly the
non-disposable ones, in order. -/
theorem pruneGo_remaining (dts : List (Nat × Bool)) :
    ∀ (tasks : List Nat) (acc : List (Nat × Bool)),
    (pruneGo dts tasks acc).2 = acc ++ dts.filter fun dt => !dt.2 := by
  induction dts with
  | nil => intro tasks acc; simp [pruneGo]
  | cons hd tl ih =>
    intro tasks acc
    obtain ⟨id, disp⟩ := hd
    cases disp with
    | true => simp [pruneGo, ih]
    | false => simp [pruneGo, ih]

/-- Counterexample to C9.  Constructing a non-disabled progress bar with an
*explicitly supplied* total does not prune: the previously-marked-disposable
entry `(0, true)` is still in the overlay afterwards (`prune_tasks` is only
called inside the `if self.total is None` branch of `TqdmShim.__init__`). -/
theorem c9_counterexample :
    (shimInit c9Printer (some 5) none false).1.displayed_tasks = [(0, true), (1, false)]
    ∧ (0, true) ∈ (shimInit c9Printer (some 5) none false).1.displayed_tasks := by
  refine ⟨by decide, by decide⟩

/-- C9 as amended: starting a non-disabled progress bar prunes the
previously-marked-disposable entries only when no explicit total was
supplied; with an explicit total the stale entries are all retained.  In both
cases the new entry is then registered as non-disposable. -/
theorem c9_prune_only_without_total (p : Printer) (t : Nat) (il : Option Nat) :
    (shimInit p (some t) il false).1.displayed_tasks
      = p.displayed_tasks ++ [(p.next_task_id, false)]
    ∧ (shimInit p none il false).1.displayed_tasks
      = (p.displayed_tasks.filter fun dt => !dt.2) ++ [(p.next_task_id, false)] := by
  constructor
  · simp [shimInit, add_task]
  · simp [shimInit, add_task, prune_tasks, pruneGo_remaining]

/-! ## Claim C10 — hijack_tqdm and restoration at finalize -/

/-- C10.  From an unpatched printer, `hijack_tqdm` saves the original
constructor; a second `hijack_tqdm` is a no-op (the original is saved only
once); `finalize` with an active table restores `tqdm.tqdm.__new__` to the
true pre-hijack constructor and clears the save. -/
theorem c10_hijack_finalize_restores (p : Printer) (c c2 : Nat)
    (h1 : p.old_tqdm_new = none) (h2 : p.logger_table.isSome = true) :
    hijack_tqdm (hijack_tqdm p c) c2 = hijack_tqdm p c
    ∧ (hijack_tqdm p c).old_tqdm_new = some p.tqdm_tqdm_new
    ∧ (hijack_tqdm p c).tqdm_tqdm_new = c
    ∧ (finalize (hijack_tqdm (hijack_tqdm p c) c2)).tqdm_tqdm_new = p.tqdm_tqdm_new
    ∧ (finalize (hijack_tqdm (hijack_tqdm p c) c2)).old_tqdm_new = none := by
  cases hlt : p.logger_table with
  | none => rw [hlt] at h2; exact absurd h2 (by simp)
  | some tbl =>
    refine ⟨?_, ?_, ?_, ?_, ?_⟩ <;> simp [hijack_tqdm, finalize, h1, hlt]

/-- Witness for C10: the statement at a concrete patched printer. -/
theorem c10_hijack_finalize_restores_witness :
    hijack_tqdm (hijack_tqdm c10Printer 5) 7 = hijack_tqdm c10Printer 5
    ∧ (hijack_tqdm c10Printer 5).old_tqdm_new = some c10Printer.tqdm_tqdm_new
    ∧ (hijack_tqdm c10Printer 5).tqdm_tqdm_new = 5
    ∧ (finalize (hijack_tqdm (hijack_tqdm c10Printer 5) 7)).tqdm_tqdm_new
        = c10Printer.tqdm_tqdm_new
    ∧ (finalize (hijack_tqdm (hijack_tqdm c10Printer 5) 7)).old_tqdm_new = none :=
  c10_hijack_finalize_restores c10Printer 5 7 (by decide) (by decide)

end RichLogger

namespace RichLogger

/-! ## Claim C2 (amended) — machinery -/

/-- Lookup failure is key absence. -/
theorem dget_eq_none_iff {K V : Type} [DecidableEq K] (d : Dict K V) (k : K) :
    dget d k = none ↔ k ∉ d.map Prod.fst := by
  induction d with
  | nil => simp [dget]
  | cons hd tl ih =>
    obtain ⟨k2, v⟩ := hd
    by_cases hk : k2 = k
    · subst hk; simp [dget]
    · simp [dget, hk, ih, Ne.symm hk]

/-- Storing a fresh key appends it. -/
theorem dset_fresh {K V : Type} [DecidableEq K] (d : Dict K V) (k : K) (v : V)
    (h : dget d k = none) : dset d k v = d ++ [(k, v)] := by
  induction d with
  | nil => rfl
  | cons hd tl ih =>
    obtain ⟨k2, v2⟩ := hd
    by_cases hk : k2 = k
    · subst hk; simp [dget] at h
    · simp only [dget, if_neg hk] at h
      simp [dset, hk, ih h]

/-- A left fold by `max` evaluates to any upper bound that is attained. -/
theorem foldl_max_eq (c : Int) :
    ∀ (rest : List Int) (v : Int), (∀ x ∈ v :: rest, x ≤ c) → c ∈ v :: rest →
    rest.foldl max v = c := by
  intro rest
  induction rest with
  | nil =>
    intro v hb hm
    simp only [List.mem_singleton] at hm
    simp [List.foldl, hm]
  | cons w rest ih =>
    intro v hb hm
    have hvc : v ≤ c := hb v (by simp)
    have hwc : w ≤ c := hb w (by simp)
    simp only [List.foldl]
    apply ih
    · intro x hx
      rcases List.mem_cons.mp hx with hx | hx
      · subst hx; exact max_le hvc hwc
      · exact hb x (by simp [hx])
    · rcases List.mem_cons.mp hm with hc | hc
      · have : max v w = c := le_antisymm (max_le hvc hwc) (hc ▸ le_max_left v w)
        simp [this]
      · rcases List.mem_cons.mp hc with hc | hc
        · have : max v w = c := le_antisymm (max_le hvc hwc) (hc ▸ le_max_right v w)
          simp [this]
        · simp [hc]

/-- Under `visRange`, the `max(values)+1 if len else 0` computation of the
rebuild loop produces exactly the next visible slot `m`. -/
theorem dictMaxVal_next (nd : Dict String Int) (m : Nat) (h : visRange nd m) :
    (match dictMaxVal nd with
      | none => (0 : Int)
      | some mx => mx + 1) = (m : Int) := by
  obtain ⟨hf, hb⟩ := h
  cases nd with
  | nil =>
    simp only [dictMaxVal]
    simp only [List.map_nil, List.filter_nil] at hf
    have hm : m = 0 := by
      have hlen : (0 : Nat) = ((List.range m).map intOfNat).length :=
        congrArg List.length hf
      rw [List.length_map, List.length_range] at hlen
      omega
    simp [hm]
  | cons hd tl =>
    simp only [dictMaxVal]
    by_cases hm : m = 0
    · subst hm
      have hall : ∀ v ∈ (hd :: tl).map Prod.snd, v = -1 := by
        intro v hv
        rcases hb v hv with h1 | h1
        · exact h1
        · exfalso; omega
      have hhead : hd.2 = -1 := hall hd.2 (by simp)
      have : (tl.map Prod.snd).foldl max hd.2 = -1 := by
        apply foldl_max_eq
        · intro x hx
          rcases List.mem_cons.mp hx with hx | hx
          · omega
          · have := hall x (by simp [hx]); omega
        · rw [hhead]; simp
      simp only [this]
      norm_num
    · have hmem : ((m : Int) - 1) ∈ (hd :: tl).map Prod.snd := by
        have h0 : m - 1 ∈ List.range m := List.mem_range.mpr (by omega)
        have h1 : intOfNat (m - 1) ∈ (List.range m).map intOfNat :=
          List.mem_map_of_mem intOfNat h0
        rw [← hf] at h1
        have h2 := List.mem_of_mem_filter h1
        have hcast : intOfNat (m - 1) = (m : Int) - 1 := by
          simp only [intOfNat]
          omega
        rwa [hcast] at h2
      have hbound : ∀ x ∈ (hd :: tl).map Prod.snd, x ≤ (m : Int) - 1 := by
        intro x hx
        rcases hb x hx with h1 | h1
        · omega
        · omega
      have : (tl.map Prod.snd).foldl max hd.2 = (m : Int) - 1 := by
        apply foldl_max_eq
        · intro x hx; exact hbound x (by simpa using hx)
        · simpa using hmem
      rw [this]
      show ((m : Int) - 1) + 1 = (m : Int)
      omega

end RichLogger

namespace RichLogger

/-- Appending a pair for a different, absent key keeps a lookup failing. -/
theorem dget_append_none {K V : Type} [DecidableEq K] (d : Dict K V) (x k : K) (v : V)
    (h1 : dget d x = none) (h2 : x ≠ k) : dget (d ++ [(k, v)]) x = none := by
  rw [dget_eq_none_iff] at h1 ⊢
  simp only [List.map_append, List.map_cons, List.map_nil, List.mem_append]
  intro hc
  rcases hc with hc | hc
  · exact h1 hc
  · simp at hc; exact h2 hc

/-- The rebuild loop of the reordering pass: on success, the new dictionary
registers exactly the processed fields in order (after the seed), and its
visible slots are `0, 1, 2, …` in order of appearance. -/
theorem phaseBGo_spec (t : Table) :
    ∀ (l : List (String × Int)) (nd : Dict String Int) (cols : List Col)
      (nd2 : Dict String Int) (cols2 : List Col) (m : Nat),
    phaseBGo t l nd cols = .ok (nd2, cols2) →
    (l.map Prod.fst).Nodup →
    (∀ x ∈ l.map Prod.fst, dget nd x = none) →
    visRange nd m →
    nd2.map Prod.fst = nd.map Prod.fst ++ l.map Prod.fst ∧ ∃ m2, visRange nd2 m2 := by
  intro l
  induction l with
  | nil =>
    intro nd cols nd2 cols2 m h hnd hfresh hvis
    simp only [phaseBGo, Except.ok.injEq, Prod.mk.injEq] at h
    obtain ⟨h1, _⟩ := h
    subst h1
    exact ⟨by simp, m, hvis⟩
  | cons hd tl ih =>
    intro nd cols nd2 cols2 m h hnd hfresh hvis
    obtain ⟨name, oldIdx⟩ := hd
    have hfname : dget nd name = none := hfresh name (by simp)
    have hnotin : name ∉ tl.map Prod.fst := by
      simp only [List.map_cons, List.nodup_cons] at hnd
      exact hnd.1
    have hndtl : (tl.map Prod.fst).Nodup := by
      simp only [List.map_cons, List.nodup_cons] at hnd
      exact hnd.2
    simp only [phaseBGo] at h
    by_cases hge : 0 ≤ oldIdx
    · rw [if_pos hge] at h
      cases hcol : t.columns.get? oldIdx.toNat with
      | none => rw [hcol] at h; cases h
      | some col =>
        rw [hcol] at h
        rw [dictMaxVal_next nd m hvis] at h
        rw [dset_fresh nd name ((m : Nat) : Int) hfname] at h
        have hfresh2 : ∀ x ∈ tl.map Prod.fst,
            dget (nd ++ [(name, ((m : Nat) : Int))]) x = none := by
          intro x hx
          refine dget_append_none nd x name _ (hfresh x (by simp [hx])) ?_
          intro hxe; exact hnotin (hxe ▸ hx)
        have hvis2 : visRange (nd ++ [(name, ((m : Nat) : Int))]) (m + 1) := by
          obtain ⟨hf, hb⟩ := hvis
          constructor
          · simp only [List.map_append, List.map_cons, List.map_nil, List.filter_append]
            rw [hf]
            have : List.filter (fun v => decide (0 ≤ v)) [((m : Nat) : Int)]
                = [((m : Nat) : Int)] := by
              simp [List.filter]
            rw [this, List.range_succ, List.map_append]
            rfl
          · intro v hv
            simp only [List.map_append, List.map_cons, List.map_nil,
              List.mem_append, List.mem_singleton] at hv
            rcases hv with hv | hv
            · rcases hb v hv with h1 | h1
              · exact Or.inl h1
              · refine Or.inr ⟨h1.1, ?_⟩
                have : ((m : Nat) : Int) < ((m + 1 : Nat) : Int) := by push_cast; omega
                omega
            · subst hv
              refine Or.inr ⟨by positivity, by push_cast; omega⟩
        obtain ⟨hkeys, hex⟩ := ih _ _ nd2 cols2 (m + 1) h hndtl hfresh2 hvis2
        constructor
        · rw [hkeys]
          simp
        · exact hex
    · rw [if_neg hge] at h
      rw [dset_fresh nd name (-1) hfname] at h
      have hfresh2 : ∀ x ∈ tl.map Prod.fst,
          dget (nd ++ [(name, (-1 : Int))]) x = none := by
        intro x hx
        refine dget_append_none nd x name _ (hfresh x (by simp [hx])) ?_
        intro hxe; exact hnotin (hxe ▸ hx)
      have hvis2 : visRange (nd ++ [(name, (-1 : Int))]) m := by
        obtain ⟨hf, hb⟩ := hvis
        constructor
        · simp only [List.map_append, List.map_cons, List.map_nil, List.filter_append]
          rw [hf]
          have : List.filter (fun v => decide (0 ≤ v)) [(-1 : Int)] = [] := by
            simp [List.filter]
          rw [this, List.append_nil]
        · intro v hv
          simp only [List.map_append, List.map_cons, List.map_nil,
            List.mem_append, List.mem_singleton] at hv
          rcases hv with hv | hv
          · exact hb v hv
          · exact Or.inl hv
      obtain ⟨hkeys, hex⟩ := ih _ _ nd2 cols2 m h hndtl hfresh2 hvis2
      constructor
      · rw [hkeys]
        simp
      · exact hex

end RichLogger

namespace RichLogger

/-- The reordering pass, on success: the rebuilt dictionary lists the fields
in stable-sorted order and its visible slots are `0, 1, 2, …`. -/
theorem phaseB_spec (rules : Rules) (d : Dict String Int) (t : Table)
    (d2 : Dict String Int) (t2 : Table)
    (h : phaseB rules d t = .ok (d2, t2))
    (hnd : (d.map Prod.fst).Nodup) :
    d2.map Prod.fst = (List.insertionSort (rankLe rules d.length) d).map Prod.fst
    ∧ d2.length = d.length
    ∧ ∃ m2, visRange d2 m2 := by
  simp only [phaseB] at h
  cases hgo : phaseBGo t (List.insertionSort (rankLe rules d.length) d) [] [] with
  | error e => rw [hgo] at h; cases h
  | ok pr =>
    obtain ⟨nd, cols⟩ := pr
    rw [hgo] at h
    simp only [Except.ok.injEq, Prod.mk.injEq] at h
    obtain ⟨h1, _⟩ := h
    subst h1
    have hperm : List.Perm ((List.insertionSort (rankLe rules d.length) d).map Prod.fst)
        (d.map Prod.fst) :=
      (List.perm_insertionSort _ d).map Prod.fst
    have hnds : ((List.insertionSort (rankLe rules d.length) d).map Prod.fst).Nodup :=
      hperm.nodup_iff.mpr hnd
    have hfresh : ∀ x ∈ (List.insertionSort (rankLe rules d.length) d).map Prod.fst,
        dget ([] : Dict String Int) x = none := fun x _ => rfl
    have hvis0 : visRange [] 0 := ⟨by simp, by simp⟩
    obtain ⟨hkeys, hex⟩ := phaseBGo_spec t _ [] [] nd cols 0 hgo hnds hfresh hvis0
    simp only [List.map_nil, List.nil_append] at hkeys
    refine ⟨hkeys, ?_, hex⟩
    have hl1 : nd.length = (nd.map Prod.fst).length := (List.length_map _ _).symm
    rw [hl1, hkeys, List.length_map]
    exact (List.perm_insertionSort _ d).length_eq

/-- One registration step either leaves the dictionary unchanged or appends
the fresh field. -/
theorem registerField_keys (rules : Rules) (st : Table × Dict String Int) (name : String) :
    (registerField rules st name).2.map Prod.fst = st.2.map Prod.fst
    ∨ ((registerField rules st name).2.map Prod.fst = st.2.map Prod.fst ++ [name]
        ∧ name ∉ st.2.map Prod.fst) := by
  unfold registerField
  by_cases hs : (dget st.2 name).isSome
  · rw [if_pos hs]; exact Or.inl rfl
  · rw [if_neg hs]
    have hnone : dget st.2 name = none := by
      cases hd : dget st.2 name
      · rfl
      · rw [hd] at hs; simp at hs
    have hmem : name ∉ st.2.map Prod.fst := (dget_eq_none_iff _ _).mp hnone
    right
    cases hg : get_last_matching_value rules name Rule.name name with
    | mk mt rv =>
      cases rv with
      | hidden =>
        simp only [hg, dset_fresh _ _ _ hnone]
        exact ⟨by simp, hmem⟩
      | val cn =>
        simp only [hg, dset_fresh _ _ _ hnone]
        exact ⟨by simp, hmem⟩

/-- The registration pass preserves key distinctness. -/
theorem phaseA_keys_nodup (rules : Rules) (info : Info) :
    ∀ (st : Table × Dict String Int), (st.2.map Prod.fst).Nodup →
    ((phaseA rules st info).2.map Prod.fst).Nodup := by
  induction info with
  | nil => intro st h; exact h
  | cons hd tl ih =>
    intro st h
    show ((phaseA rules (registerField rules st hd.1) tl).2.map Prod.fst).Nodup
    apply ih
    rcases registerField_keys rules st hd.1 with hk | ⟨hk, hm⟩
    · rw [hk]; exact h
    · rw [hk, List.nodup_append]
      refine ⟨h, List.nodup_singleton _, ?_⟩
      intro x hx hx2
      simp only [List.mem_singleton] at hx2
      exact hm (hx2 ▸ hx)

end RichLogger


namespace RichLogger

/-! ## Claim C7 — hidden fields, machinery -/

/-- Storing under one key does not affect lookups of another. -/
theorem dget_dset_ne {K V : Type} [DecidableEq K] (d : Dict K V) (k x : K) (v : V)
    (h : k ≠ x) : dget (dset d k v) x = dget d x := by
  induction d with
  | nil => simp [dset, dget, h]
  | cons hd tl ih =>
    obtain ⟨k2, v2⟩ := hd
    by_cases hk : k2 = k
    · subst hk; simp [dset, dget, h]
    · simp [dset, dget, hk, ih]

/-- Lookup after store of the same key. -/
theorem dget_dset_self {K V : Type} [DecidableEq K] (d : Dict K V) (k : K) (v : V) :
    dget (dset d k v) k = some v := by
  induction d with
  | nil => simp [dset, dget]
  | cons hd tl ih =>
    obtain ⟨k2, v2⟩ := hd
    by_cases hk : k2 = k
    · subst hk; simp [dset, dget]
    · simp [dset, dget, hk, ih]

/-- A successful lookup exhibits the stored pair. -/
theorem dget_some_mem {K V : Type} [DecidableEq K] (d : Dict K V) (k : K) (v : V)
    (h : dget d k = some v) : (k, v) ∈ d := by
  induction d with
  | nil => cases h
  | cons hd tl ih =>
    obtain ⟨k2, w⟩ := hd
    by_cases hk : k2 = k
    · subst hk
      simp only [dget, eq_self_iff_true, if_true, Option.some.injEq] at h
      subst h
      simp
    · simp only [dget, if_neg hk] at h
      exact List.mem_cons_of_mem _ (ih h)

/-- The rebuild loop leaves lookups of unprocessed fields unchanged. -/
theorem phaseBGo_dget_preserve (t : Table) :
    ∀ (l : List (String × Int)) (nd : Dict String Int) (cols : List Col)
      (nd2 : Dict String Int) (cols2 : List Col) (x : String),
    phaseBGo t l nd cols = .ok (nd2, cols2) →
    x ∉ l.map Prod.fst →
    dget nd2 x = dget nd x := by
  intro l
  induction l with
  | nil =>
    intro nd cols nd2 cols2 x h hx
    simp only [phaseBGo, Except.ok.injEq, Prod.mk.injEq] at h
    rw [← h.1]
  | cons hd tl ih =>
    intro nd cols nd2 cols2 x h hx
    obtain ⟨name, oldIdx⟩ := hd
    have hxname : name ≠ x := by
      intro hc
      exact hx (by simp [hc])
    have hxtl : x ∉ tl.map Prod.fst := by
      intro hc
      exact hx (by simp [hc])
    simp only [phaseBGo] at h
    by_cases hge : 0 ≤ oldIdx
    · rw [if_pos hge] at h
      cases hcol : t.columns.get? oldIdx.toNat with
      | none => rw [hcol] at h; cases h
      | some col =>
        rw [hcol] at h
        rw [ih _ _ nd2 cols2 x h hxtl, dget_dset_ne _ _ _ _ hxname]
    · rw [if_neg hge] at h
      rw [ih _ _ nd2 cols2 x h hxtl, dget_dset_ne _ _ _ _ hxname]

/-- The rebuild loop maps a hidden field (slot `-1`, unique among the keys)
to the hidden sentinel again. -/
theorem phaseBGo_dget_neg (t : Table) :
    ∀ (l : List (String × Int)) (nd : Dict String Int) (cols : List Col)
      (nd2 : Dict String Int) (cols2 : List Col) (n : String),
    phaseBGo t l nd cols = .ok (nd2, cols2) →
    (n, (-1 : Int)) ∈ l →
    (l.map Prod.fst).Nodup →
    dget nd n = none →
    dget nd2 n = some (-1) := by
  intro l
  induction l with
  | nil =>
    intro nd cols nd2 cols2 n h hmem
    cases hmem
  | cons hd tl ih =>
    intro nd cols nd2 cols2 n h hmem hnd hseed
    obtain ⟨name, oldIdx⟩ := hd
    have hnotin : name ∉ tl.map Prod.fst := by
      simp only [List.map_cons, List.nodup_cons] at hnd
      exact hnd.1
    have hndtl : (tl.map Prod.fst).Nodup := by
      simp only [List.map_cons, List.nodup_cons] at hnd
      exact hnd.2
    simp only [phaseBGo] at h
    by_cases hname : name = n
    · subst hname
      have hhead : oldIdx = -1 := by
        rcases List.mem_cons.mp hmem with hc | hc
        · exact (congrArg Prod.snd hc).symm
        · exact absurd (List.mem_map_of_mem Prod.fst hc) hnotin
      subst hhead
      rw [if_neg (by norm_num)] at h
      have := phaseBGo_dget_preserve t tl _ _ nd2 cols2 name h hnotin
      rw [this, dget_dset_self]
    · have hmemtl : (n, (-1 : Int)) ∈ tl := by
        rcases List.mem_cons.mp hmem with hc | hc
        · exact absurd (congrArg Prod.fst hc).symm hname
        · exact hc
      have hseed2 : ∀ w : Int, dget (dset nd name w) n = none := fun w => by
        rw [dget_dset_ne _ _ _ _ hname, hseed]
      by_cases hge : 0 ≤ oldIdx
      · rw [if_pos hge] at h
        cases hcol : t.columns.get? oldIdx.toNat with
        | none => rw [hcol] at h; cases h
        | some col =>
          rw [hcol] at h
          exact ih _ _ nd2 cols2 n h hmemtl hndtl (hseed2 _)
      · rw [if_neg hge] at h
        exact ih _ _ nd2 cols2 n h hmemtl hndtl (hseed2 _)

end RichLogger

namespace RichLogger

/-- Registration of a field whose name resolution is hidden always leaves it
at the sentinel `-1` (freshly set, or kept from before). -/
theorem registerField_hidden_self (rules : Rules) (st : Table × Dict String Int) (n : String)
    (h1 : (get_last_matching_value rules n Rule.name n).2 = .hidden)
    (h : dget st.2 n = none ∨ dget st.2 n = some (-1)) :
    dget (registerField rules st n).2 n = some (-1) := by
  rcases h with h | h
  · unfold registerField
    rw [if_neg (by simp [h])]
    cases hg : get_last_matching_value rules n Rule.name n with
    | mk mt rv =>
      rw [hg] at h1
      simp only at h1
      subst h1
      simp only [dget_dset_self]
  · unfold registerField
    rw [if_pos (by simp [h])]
    exact h

/-- Registration of one field leaves lookups of other fields unchanged. -/
theorem registerField_dget_ne (rules : Rules) (st : Table × Dict String Int)
    (m x : String) (h : x ≠ m) :
    dget (registerField rules st m).2 x = dget st.2 x := by
  unfold registerField
  by_cases hs : (dget st.2 m).isSome
  · rw [if_pos hs]
  · rw [if_neg hs]
    cases hg : get_last_matching_value rules m Rule.name m with
    | mk mt rv =>
      cases rv with
      | hidden => simp only [dget_dset_ne _ _ _ _ (Ne.symm h)]
      | val cn => simp only [dget_dset_self, dget_dset_ne _ _ _ _ (Ne.symm h)]

/-- The registration pass keeps an already-hidden field at `-1`. -/
theorem phaseA_dget_keep (rules : Rules) (n : String) :
    ∀ (info : Info) (st : Table × Dict String Int),
    dget st.2 n = some (-1) → dget (phaseA rules st info).2 n = some (-1) := by
  intro info
  induction info with
  | nil => intro st h; exact h
  | cons hd tl ih =>
    intro st h
    show dget (phaseA rules (registerField rules st hd.1) tl).2 n = some (-1)
    apply ih
    by_cases hm : hd.1 = n
    · subst hm
      unfold registerField
      rw [if_pos (by simp [h])]
      exact h
    · rw [registerField_dget_ne rules st hd.1 n (Ne.symm hm)]
      exact h

/-- After the registration pass over a record containing a hidden field `n`
(starting from a state where `n` is unregistered or already hidden), `n` is
registered at the hidden sentinel `-1`. -/
theorem phaseA_dget_hidden (rules : Rules) (n : String)
    (h1 : (get_last_matching_value rules n Rule.name n).2 = .hidden) :
    ∀ (info : Info) (st : Table × Dict String Int),
    (dget st.2 n = none ∨ dget st.2 n = some (-1)) →
    n ∈ info.map Prod.fst →
    dget (phaseA rules st info).2 n = some (-1) := by
  intro info
  induction info with
  | nil => intro st _ hmem; cases hmem
  | cons hd tl ih =>
    intro st h hmem
    show dget (phaseA rules (registerField rules st hd.1) tl).2 n = some (-1)
    by_cases hm : hd.1 = n
    · subst hm
      exact phaseA_dget_keep rules hd.1 tl _ (registerField_hidden_self rules st hd.1 h1 h)
    · have hmemtl : n ∈ tl.map Prod.fst := by
        rcases List.mem_cons.mp hmem with hc | hc
        · exact absurd hc.symm hm
        · exact hc
      apply ih _ _ hmemtl
      rw [registerField_dget_ne rules st hd.1 n (Ne.symm hm)]
      exact h

/-- The reordering pass maps a hidden field to the hidden sentinel again. -/
theorem phaseB_dget_neg (rules : Rules) (d : Dict String Int) (t : Table)
    (d2 : Dict String Int) (t2 : Table) (n : String)
    (h : phaseB rules d t = .ok (d2, t2))
    (hd : dget d n = some (-1))
    (hnd : (d.map Prod.fst).Nodup) :
    dget d2 n = some (-1) := by
  simp only [phaseB] at h
  cases hgo : phaseBGo t (List.insertionSort (rankLe rules d.length) d) [] [] with
  | error e => rw [hgo] at h; cases h
  | ok pr =>
    obtain ⟨nd, cols⟩ := pr
    rw [hgo] at h
    simp only [Except.ok.injEq, Prod.mk.injEq] at h
    obtain ⟨h2, _⟩ := h
    subst h2
    have hmem : (n, (-1 : Int)) ∈ List.insertionSort (rankLe rules d.length) d :=
      ((List.perm_insertionSort _ d).mem_iff).mpr (dget_some_mem d n (-1) hd)
    have hnds : ((List.insertionSort (rankLe rules d.length) d).map Prod.fst).Nodup :=
      (((List.perm_insertionSort (rankLe rules d.length) d).map Prod.fst).nodup_iff).mpr hnd
    exact phaseBGo_dget_neg t _ [] [] nd cols n hgo hmem hnds rfl

end RichLogger

namespace RichLogger

/-- The registration pass never reads the record's values. -/
theorem phaseA_value_irrel (rules : Rules) (i1 i2 : Info) (n : String) (v v2 : Value)
    (st : Table × Dict String Int) :
    phaseA rules st (i1 ++ (n, v) :: i2) = phaseA rules st (i1 ++ (n, v2) :: i2) := by
  unfold phaseA
  rw [List.foldl_append, List.foldl_append]
  rfl

/-- Lookup of a different key is unaffected by the value stored at `n`. -/
theorem dget_middle_ne {V : Type} (i1 i2 : List (String × V)) (n k : String) (v v2 : V)
    (h : k ≠ n) :
    dget (i1 ++ (n, v) :: i2) k = dget (i1 ++ (n, v2) :: i2) k := by
  induction i1 with
  | nil => simp [dget, if_neg (Ne.symm h)]
  | cons hd tl ih =>
    obtain ⟨k2, w⟩ := hd
    by_cases hk : k2 = k
    · simp [dget, hk]
    · simp [dget, hk, ih]

/-- Row resolution only reads the record at the configured key, so the value
of a different field is irrelevant. -/
theorem resolveRow_value_irrel (key : Option String) (k2r : Dict Value Nat) (t : Table)
    (i1 i2 : Info) (n : String) (v v2 : Value) (h : key ≠ some n) :
    resolveRow key k2r t (i1 ++ (n, v) :: i2) = resolveRow key k2r t (i1 ++ (n, v2) :: i2) := by
  cases key with
  | none => rfl
  | some k =>
    have hk : k ≠ n := fun hc => h (by rw [hc])
    simp only [resolveRow, dget_middle_ne i1 i2 n k v v2 hk]

/-- The cell-writing loop skips a field registered at the hidden sentinel:
the record with that field behaves exactly as the record without it — no
cell write, no formatting, no error for it. -/
theorem writeCells_skip_hidden (rules : Rules) (d : Dict String Int) (n : String)
    (hn : dget d n = some (-1)) :
    ∀ (i1 i2 : Info) (v : Value) (best : Dict String Value) (t : Table) (idx : Nat),
    writeCells rules d best t idx (i1 ++ (n, v) :: i2)
      = writeCells rules d best t idx (i1 ++ i2) := by
  intro i1
  induction i1 with
  | nil =>
    intro i2 v best t idx
    simp only [List.nil_append, writeCells, writeCell1, hn]
    norm_num
  | cons hd tl ih =>
    intro i2 v best t idx
    obtain ⟨m, w⟩ := hd
    simp only [List.cons_append, writeCells]
    cases hw : writeCell1 rules d best t idx m w with
    | mk st e =>
      cases e with
      | none =>
        obtain ⟨b2, t2⟩ := st
        exact ih i2 v b2 t2 idx
      | some e => rfl

/-- On any `log_metrics` over a record containing a field `n` whose name
resolution is hidden (from a consistent state), the resulting dictionary maps
`n` to the hidden sentinel `-1` — the spec's "no column" marker. -/
theorem log_metrics_dget_hidden (p : Printer) (info : Info) (n : String)
    (h1 : (get_last_matching_value p.rules n Rule.name n).2 = .hidden)
    (h3 : dget p.name_to_column_idx n = none ∨ dget p.name_to_column_idx n = some (-1))
    (h4 : (p.name_to_column_idx.map Prod.fst).Nodup)
    (h5 : n ∈ info.map Prod.fst) :
    dget (log_metrics p info).1.name_to_column_idx n = some (-1) := by
  have hd1 : dget (phaseA p.rules (p.logger_table.getD { columns := [], nrows := 0 },
      p.name_to_column_idx) info).2 n = some (-1) :=
    phaseA_dget_hidden p.rules n h1 info _ h3 h5
  have hnd1 : ((phaseA p.rules (p.logger_table.getD { columns := [], nrows := 0 },
      p.name_to_column_idx) info).2.map Prod.fst).Nodup :=
    phaseA_keys_nodup p.rules info _ h4
  simp only [log_metrics]
  cases hB : phaseB p.rules
      (phaseA p.rules (p.logger_table.getD { columns := [], nrows := 0 },
        p.name_to_column_idx) info).2
      (phaseA p.rules (p.logger_table.getD { columns := [], nrows := 0 },
        p.name_to_column_idx) info).1 with
  | error e => exact hd1
  | ok pr =>
    obtain ⟨d2, t2⟩ := pr
    have hd2 : dget d2 n = some (-1) := phaseB_dget_neg _ _ _ _ _ n hB hd1 hnd1
    cases hR : resolveRow p.key p.key_to_row_idx t2 info with
    | mk k2r rest =>
      obtain ⟨t3, idxq⟩ := rest
      cases idxq with
      | none =>
        simp only [hR]
        exact hd2
      | some idx =>
        simp only [hR]
        exact hd2

end RichLogger

namespace RichLogger

/-- C7.  A field `n` matched by a `False` (hidden) rule — other than the
configured grouping key, and not previously registered as visible — is
silently dropped by `log_metrics`, for every record and every value type:
(i) the entire call result is independent of `n`'s value (so no cell content,
no best-value update and no error can ever derive from it — in particular its
value is never passed to a format string); (ii) `n` is registered at the
sentinel slot `-1`, the data model's "no column, no storage" marker, so no
column is created for it; (iii) the cell-writing loop treats the record
exactly as if the field were absent (no cell write, no formatting, no error
for it). -/
theorem c7_hidden_field_dropped (p : Printer) (i1 i2 : Info) (n : String) (v v2 : Value)
    (h1 : (get_last_matching_value p.rules n Rule.name n).2 = .hidden)
    (h2 : p.key ≠ some n)
    (h3 : dget p.name_to_column_idx n = none ∨ dget p.name_to_column_idx n = some (-1))
    (h4 : (p.name_to_column_idx.map Prod.fst).Nodup) :
    log_metrics p (i1 ++ (n, v) :: i2) = log_metrics p (i1 ++ (n, v2) :: i2)
    ∧ dget (log_metrics p (i1 ++ (n, v) :: i2)).1.name_to_column_idx n = some (-1)
    ∧ ∀ (rules : Rules) (d : Dict String Int) (best : Dict String Value)
        (t : Table) (idx : Nat),
      dget d n = some (-1) →
      writeCells rules d best t idx (i1 ++ (n, v) :: i2)
        = writeCells rules d best t idx (i1 ++ i2) := by
  refine ⟨?_, log_metrics_dget_hidden p _ n h1 h3 h4 (by simp),
    fun rules d best t idx hd => writeCells_skip_hidden rules d n hd i1 i2 v best t idx⟩
  simp only [log_metrics, phaseA_value_irrel p.rules i1 i2 n v v2]
  cases hB : phaseB p.rules
      (phaseA p.rules (p.logger_table.getD { columns := [], nrows := 0 },
        p.name_to_column_idx) (i1 ++ (n, v2) :: i2)).2
      (phaseA p.rules (p.logger_table.getD { columns := [], nrows := 0 },
        p.name_to_column_idx) (i1 ++ (n, v2) :: i2)).1 with
  | error e => rfl
  | ok pr =>
    obtain ⟨d2, t2⟩ := pr
    have hd1 : dget (phaseA p.rules (p.logger_table.getD { columns := [], nrows := 0 },
        p.name_to_column_idx) (i1 ++ (n, v2) :: i2)).2 n = some (-1) :=
      phaseA_dget_hidden p.rules n h1 _ _ h3 (by simp)
    have hnd1 : ((phaseA p.rules (p.logger_table.getD { columns := [], nrows := 0 },
        p.name_to_column_idx) (i1 ++ (n, v2) :: i2)).2.map Prod.fst).Nodup :=
      phaseA_keys_nodup p.rules _ _ h4
    have hd2 : dget d2 n = some (-1) := phaseB_dget_neg _ _ _ _ _ n hB hd1 hnd1
    simp only [resolveRow_value_irrel p.key p.key_to_row_idx t2 i1 i2 n v v2 h2,
      writeCells_skip_hidden p.rules d2 n hd2]

/-- Witness for C7 at a concrete printer: one hidden rule, a record with a
visible field and the hidden field carrying a numeric vs. a string value. -/
theorem c7_hidden_field_dropped_witness :
    log_metrics (mkPrinter [(.lit "secret", .bool false)] none)
        ([("a", .num 1)] ++ ("secret", .num 7) :: [])
      = log_metrics (mkPrinter [(.lit "secret", .bool false)] none)
        ([("a", .num 1)] ++ ("secret", .str "boom") :: [])
    ∧ dget (log_metrics (mkPrinter [(.lit "secret", .bool false)] none)
        ([("a", .num 1)] ++ ("secret", .num 7) :: [])).1.name_to_column_idx "secret"
      = some (-1)
    ∧ ∀ (rules : Rules) (d : Dict String Int) (best : Dict String Value)
        (t : Table) (idx : Nat),
      dget d "secret" = some (-1) →
      writeCells rules d best t idx ([("a", .num 1)] ++ ("secret", .num 7) :: [])
        = writeCells rules d best t idx ([("a", .num 1)] ++ []) :=
  c7_hidden_field_dropped (mkPrinter [(.lit "secret", .bool false)] none)
    [("a", .num 1)] [] "secret" (.num 7) (.str "boom")
    (by decide) (by decide) (Or.inl rfl) (by decide)

end RichLogger

namespace RichLogger

/-! ## Claim C2 (amended) — stability and the column list -/

/-- Setting a position to the value it already holds is the identity. -/
theorem set_get_self {α : Type} : ∀ (l : List α) (i : Nat) (a : α),
    l.get? i = some a → l.set i a = l
  | [], _, _, h => by cases h
  | x :: xs, 0, a, h => by
    simp only [List.get?, Option.some.injEq] at h
    simp [List.set, h]
  | x :: xs, i + 1, a, h => by
    simp only [List.get?] at h
    simp [List.set, set_get_self xs i a h]

/-- `add_row` does not change the column headers. -/
theorem addRow_headers (t : Table) :
    t.addRow.columns.map Col.header = t.columns.map Col.header := by
  simp only [Table.addRow, List.map_map]
  exact List.map_congr_left fun c _ => rfl

/-- One iteration of the cell-writing loop never changes the column headers
(it only rewrites one column's cells, or leaves the table untouched). -/
theorem writeCell1_table_headers (rules : Rules) (d : Dict String Int)
    (best : Dict String Value) (t : Table) (idx : Nat) (name : String) (value : Value) :
    (writeCell1 rules d best t idx name value).1.2.columns.map Col.header
      = t.columns.map Col.header := by
  unfold writeCell1
  repeat' split
  all_goals try rfl
  rename_i x2 i hdg hi x1 col hcol x0 fv hfmt
  dsimp only
  split
  · rfl
  next fv2 best2 hstep =>
    split
    · rfl
    next cells2 hset =>
      rw [List.map_set]
      exact set_get_self _ _ _ (by rw [List.get?_map, hcol]; rfl)

/-- The cell-writing loop never changes the column headers. -/
theorem writeCells_table_headers (rules : Rules) (d : Dict String Int) :
    ∀ (fields : Info) (best : Dict String Value) (t : Table) (idx : Nat),
    (writeCells rules d best t idx fields).1.2.columns.map Col.header
      = t.columns.map Col.header := by
  intro fields
  induction fields with
  | nil => intro best t idx; rfl
  | cons hd tl ih =>
    intro best t idx
    obtain ⟨n, v⟩ := hd
    have hh : (writeCell1 rules d best t idx n v).1.2.columns.map Col.header
        = t.columns.map Col.header := writeCell1_table_headers rules d best t idx n v
    simp only [writeCells]
    cases hw : writeCell1 rules d best t idx n v with
    | mk st e =>
      rw [hw] at hh
      cases e with
      | some e => exact hh
      | none =>
        obtain ⟨b2, t2⟩ := st
        rw [ih b2 t2 idx]
        exact hh

/-- Row resolution never changes the column headers (it at most appends a
row). -/
theorem resolveRow_headers (key : Option String) (k2r : Dict Value Nat) (t : Table)
    (info : Info) :
    (resolveRow key k2r t info).2.1.columns.map Col.header
      = t.columns.map Col.header := by
  unfold resolveRow
  repeat' split
  all_goals first | rfl | exact addRow_headers t

/-- The rebuild loop collects exactly the pre-reorder columns of the visible
entries, in traversal order. -/
theorem phaseBGo_cols (t : Table) :
    ∀ (l : List (String × Int)) (nd : Dict String Int) (cols : List Col)
      (nd2 : Dict String Int) (cols2 : List Col),
    phaseBGo t l nd cols = .ok (nd2, cols2) →
    cols2 = cols ++ l.filterMap
      (fun e => if 0 ≤ e.2 then t.columns.get? e.2.toNat else none) := by
  intro l
  induction l with
  | nil =>
    intro nd cols nd2 cols2 h
    simp only [phaseBGo, Except.ok.injEq, Prod.mk.injEq] at h
    rw [← h.2]
    simp
  | cons hd tl ih =>
    intro nd cols nd2 cols2 h
    obtain ⟨name, oldIdx⟩ := hd
    simp only [phaseBGo] at h
    by_cases hge : 0 ≤ oldIdx
    · rw [if_pos hge] at h
      cases hcol : t.columns.get? oldIdx.toNat with
      | none => rw [hcol] at h; cases h
      | some col =>
        rw [hcol] at h
        rw [ih _ _ nd2 cols2 h, List.filterMap_cons]
        rw [List.get?_eq_getElem?] at hcol
        simp [hge, hcol]
    · rw [if_neg hge] at h
      rw [ih _ _ nd2 cols2 h, List.filterMap_cons]
      simp [hge]

/-- The reordering pass, on success, replaces the table's column list by the
pre-reorder columns of the visible entries in stable-sorted field order. -/
theorem phaseB_cols (rules : Rules) (d : Dict String Int) (t : Table)
    (d2 : Dict String Int) (t2 : Table) (h : phaseB rules d t = .ok (d2, t2)) :
    t2.columns = (List.insertionSort (rankLe rules d.length) d).filterMap
      (fun e => if 0 ≤ e.2 then t.columns.get? e.2.toNat else none) := by
  simp only [phaseB] at h
  cases hgo : phaseBGo t (List.insertionSort (rankLe rules d.length) d) [] [] with
  | error e => rw [hgo] at h; cases h
  | ok pr =>
    obtain ⟨nd, cols⟩ := pr
    rw [hgo] at h
    simp only [Except.ok.injEq, Prod.mk.injEq] at h
    rw [← h.2]
    simpa using phaseBGo_cols t _ [] [] nd cols hgo

end RichLogger

namespace RichLogger

/-- C2 as amended.  After any successful `log_metrics` call (from a state
with distinct registered field names), with `N` the number of registered
fields at reorder time:
(i) the registered fields are `Pairwise`-ordered by the key
`get_name_index` — the index of the field's last matching rule, or `N` for a
field matching no rule (not infinity: `c2_counterexample` shows an unmatched
field placed before a matched one when rules outnumber fields);
(ii) the visible fields occupy the column slots `0, 1, 2, …` in exactly that
order;
(iii) the sort is stable: any two fields already in `≤`-key order in the
registration dictionary — whose order is first-appearance order, so in
particular any two unmatched fields, which share the key `N` — keep their
relative order in the result;
(iv) the table's actual column list is the pre-reorder columns of the visible
fields in that same sorted order (stated via the headers, which the
row-creation and cell-writing steps never change) — so the visible columns of
the rendered table are ordered by the same key. -/
theorem c2_fields_sorted_by_rank (p : Printer) (info : Info)
    (h1 : (p.name_to_column_idx.map Prod.fst).Nodup)
    (h2 : (log_metrics p info).2 = none) :
    ((log_metrics p info).1.name_to_column_idx.map Prod.fst).Pairwise
      (fun a b =>
        get_name_index p.rules (log_metrics p info).1.name_to_column_idx.length a
          ≤ get_name_index p.rules (log_metrics p info).1.name_to_column_idx.length b)
    ∧ (∃ k, (((log_metrics p info).1.name_to_column_idx.map Prod.snd).filter
        fun v => decide (0 ≤ v)) = (List.range k).map intOfNat)
    ∧ (∀ (n1 n2 : String) (x1 x2 : Int),
        List.Sublist [(n1, x1), (n2, x2)] (registration p info).2 →
        get_name_index p.rules (registration p info).2.length n1
          ≤ get_name_index p.rules (registration p info).2.length n2 →
        List.Sublist [n1, n2] ((log_metrics p info).1.name_to_column_idx.map Prod.fst))
    ∧ (∃ tf, (log_metrics p info).1.logger_table = some tf
        ∧ tf.columns.map Col.header
          = ((List.insertionSort (rankLe p.rules (registration p info).2.length)
              (registration p info).2).filterMap
              (fun e => if 0 ≤ e.2 then (registration p info).1.columns.get? e.2.toNat
                else none)).map Col.header) := by
  have hnd1 : ((phaseA p.rules (p.logger_table.getD { columns := [], nrows := 0 },
      p.name_to_column_idx) info).2.map Prod.fst).Nodup :=
    phaseA_keys_nodup p.rules info _ h1
  simp only [log_metrics, registration] at h2 ⊢
  cases hB : phaseB p.rules
      (phaseA p.rules (p.logger_table.getD { columns := [], nrows := 0 },
        p.name_to_column_idx) info).2
      (phaseA p.rules (p.logger_table.getD { columns := [], nrows := 0 },
        p.name_to_column_idx) info).1 with
  | error e =>
    simp only [hB] at h2
    exact Option.noConfusion h2
  | ok pr =>
    obtain ⟨d2, t2⟩ := pr
    simp only [hB] at h2 ⊢
    obtain ⟨hkeys, hlen, m2, hvis⟩ := phaseB_spec _ _ _ _ _ hB hnd1
    have hpair : List.Pairwise
        (rankLe p.rules (phaseA p.rules (p.logger_table.getD { columns := [], nrows := 0 },
          p.name_to_column_idx) info).2.length)
        (List.insertionSort
          (rankLe p.rules (phaseA p.rules (p.logger_table.getD { columns := [], nrows := 0 },
            p.name_to_column_idx) info).2.length)
          (phaseA p.rules (p.logger_table.getD { columns := [], nrows := 0 },
            p.name_to_column_idx) info).2) :=
      List.sorted_insertionSort _ _
    have hpw : (d2.map Prod.fst).Pairwise
        (fun a b => get_name_index p.rules d2.length a ≤ get_name_index p.rules d2.length b) := by
      rw [hkeys, hlen]
      exact List.Pairwise.map Prod.fst (fun a b hab => hab) hpair
    have hvisr : ∃ k, ((d2.map Prod.snd).filter fun v => decide (0 ≤ v))
        = (List.range k).map intOfNat := ⟨m2, hvis.1⟩
    have hstab : ∀ (n1 n2 : String) (x1 x2 : Int),
        List.Sublist [(n1, x1), (n2, x2)]
          (phaseA p.rules (p.logger_table.getD { columns := [], nrows := 0 },
            p.name_to_column_idx) info).2 →
        get_name_index p.rules (phaseA p.rules (p.logger_table.getD { columns := [], nrows := 0 },
          p.name_to_column_idx) info).2.length n1
          ≤ get_name_index p.rules (phaseA p.rules
              (p.logger_table.getD { columns := [], nrows := 0 },
              p.name_to_column_idx) info).2.length n2 →
        List.Sublist [n1, n2] (d2.map Prod.fst) := by
      intro n1 n2 x1 x2 hsub hle
      have hps := List.pair_sublist_insertionSort
        (show rankLe p.rules
            (phaseA p.rules (p.logger_table.getD { columns := [], nrows := 0 },
              p.name_to_column_idx) info).2.length (n1, x1) (n2, x2) from hle) hsub
      have hm := hps.map Prod.fst
      rw [hkeys]
      simpa using hm
    have hcols := phaseB_cols p.rules _ _ d2 t2 hB
    cases hR : resolveRow p.key p.key_to_row_idx t2 info with
    | mk k2r rest =>
      obtain ⟨t3, idxq⟩ := rest
      cases idxq with
      | none =>
        rw [hR] at h2
        exact Option.noConfusion h2
      | some idx =>
        have ht3 : t3.columns.map Col.header = t2.columns.map Col.header := by
          have hrr := resolveRow_headers p.key p.key_to_row_idx t2 info
          rw [hR] at hrr
          exact hrr
        refine ⟨hpw, hvisr, hstab,
          (writeCells p.rules d2 p.best t3 idx info).1.2, rfl, ?_⟩
        rw [writeCells_table_headers p.rules d2 info p.best t3 idx, ht3, hcols]

/-- Witness for the amended C2 at a concrete printer and record. -/
theorem c2_fields_sorted_by_rank_witness :
    ((log_metrics (mkPrinter c2Rules none)
        [("d", .num 1), ("zzz", .num 2)]).1.name_to_column_idx.map Prod.fst).Pairwise
      (fun a b =>
        get_name_index (mkPrinter c2Rules none).rules
          (log_metrics (mkPrinter c2Rules none)
            [("d", .num 1), ("zzz", .num 2)]).1.name_to_column_idx.length a
          ≤ get_name_index (mkPrinter c2Rules none).rules
            (log_metrics (mkPrinter c2Rules none)
              [("d", .num 1), ("zzz", .num 2)]).1.name_to_column_idx.length b)
    ∧ (∃ k, (((log_metrics (mkPrinter c2Rules none)
        [("d", .num 1), ("zzz", .num 2)]).1.name_to_column_idx.map Prod.snd).filter
        fun v => decide (0 ≤ v)) = (List.range k).map intOfNat)
    ∧ (∀ (n1 n2 : String) (x1 x2 : Int),
        List.Sublist [(n1, x1), (n2, x2)]
          (registration (mkPrinter c2Rules none) [("d", .num 1), ("zzz", .num 2)]).2 →
        get_name_index (mkPrinter c2Rules none).rules
          (registration (mkPrinter c2Rules none) [("d", .num 1), ("zzz", .num 2)]).2.length n1
          ≤ get_name_index (mkPrinter c2Rules none).rules
            (registration (mkPrinter c2Rules none) [("d", .num 1), ("zzz", .num 2)]).2.length n2 →
        List.Sublist [n1, n2] ((log_metrics (mkPrinter c2Rules none)
          [("d", .num 1), ("zzz", .num 2)]).1.name_to_column_idx.map Prod.fst))
    ∧ (∃ tf, (log_metrics (mkPrinter c2Rules none)
          [("d", .num 1), ("zzz", .num 2)]).1.logger_table = some tf
        ∧ tf.columns.map Col.header
          = ((List.insertionSort
              (rankLe (mkPrinter c2Rules none).rules
                (registration (mkPrinter c2Rules none)
                  [("d", .num 1), ("zzz", .num 2)]).2.length)
              (registration (mkPrinter c2Rules none)
                [("d", .num 1), ("zzz", .num 2)]).2).filterMap
              (fun e => if 0 ≤ e.2 then
                  (registration (mkPrinter c2Rules none)
                    [("d", .num 1), ("zzz", .num 2)]).1.columns.get? e.2.toNat
                else none)).map Col.header) :=
  c2_fields_sorted_by_rank (mkPrinter c2Rules none) [("d", .num 1), ("zzz", .num 2)]
    (by decide) (by decide)

end RichLogger
